import Mathlib

/-!
Verification of the toki countdown-timer program (main.go).

The development shallowly embeds the program's two components:

* the Duration Sequencer: `splitTimerArgString`, `addSuffixIfArgIsNumber`
  and the duration-parsing loop of `rootCmd.RunE`, together with models of
  the Go standard-library routines they call (`regexp.Split` on the pattern
  `\s*[\s,-]\s*`, `strconv.ParseFloat`, `time.ParseDuration`);
* the Stage Runner: the `model` struct, `model.Update`, `timerInterval`,
  and the exit path of `rootCmd.RunE` / `main`.

Durations and wall-clock instants are modelled as `Int` nanoseconds
(Go's `time.Duration` is an `int64` of nanoseconds; no claim input comes
near overflow).  A Go runtime panic (integer division by zero, slice
index out of range) is modelled by returning `none`.
-/

namespace Toki

/-! ### Model of Go regexp splitting used by splitTimerArgString -/

/-- Characters matched by the RE2 character class `\s` (tab, newline,
form feed, carriage return, space). -/
def goIsSpace (c : Char) : Bool :=
  c = ' ' || c = '\t' || c = '\n' || c = '\x0c' || c = '\r'

/-- Characters matched by the RE2 character class `[\s,-]` from the
separator pattern in `splitTimerArgString`. -/
def isSepChar (c : Char) : Bool :=
  goIsSpace c || c = ',' || c = '-'

/-- Drop a maximal leading run of RE2 whitespace. -/
def skipWs : List Char → List Char
  | [] => []
  | c :: t => if goIsSpace c then skipWs t else c :: t

/-- Modelled from Go `regexp`: the match of `\s*[\s,-]\s*` starting at the
head of `cs`, which must begin with a separator-class character.  The
leading `\s*` is greedy, so the whole leading whitespace run is consumed;
if a comma or hyphen follows it, that character and its trailing
whitespace run are consumed as well, otherwise the match is just the
whitespace run (the greedy `\s*` backtracks by one so that `[\s,-]`
matches the last whitespace character).  Returns the unconsumed rest. -/
def consumeSepMatch (cs : List Char) : List Char :=
  match skipWs cs with
  | ',' :: t => skipWs t
  | '-' :: t => skipWs t
  | r => r

/-- Fuelled worker for `splitTimerArgString`.  Go's `regexp.Split` keeps
the text between consecutive matches, including empty pieces; each
recursive call consumes at least one character, so fuel equal to the
length of the input plus one is never exhausted. -/
def splitAux : Nat → List Char → List Char → List String
  | 0, _, acc => [String.mk acc.reverse]
  | _ + 1, [], acc => [String.mk acc.reverse]
  | fuel + 1, c :: t, acc =>
    if isSepChar c then
      String.mk acc.reverse :: splitAux fuel (consumeSepMatch (c :: t)) []
    else
      splitAux fuel t (c :: acc)

/-- Model of `splitTimerArgString` (main.go): split the argument with
`regexp.MustCompile("\\s*[\\s,-]\\s*").Split(s, -1)`. -/
def splitTimerArgString (s : String) : List String :=
  splitAux (s.data.length + 1) s.data []

/-! ### Model of strconv.ParseFloat acceptance -/

/-- Decimal digit test (`'0' <= c && c <= '9'` in the Go sources). -/
def isDigitChar (c : Char) : Bool :=
  '0' ≤ c && c ≤ '9'

/-- Hexadecimal digit test. -/
def isHexDigitChar (c : Char) : Bool :=
  isDigitChar c || ('a' ≤ c && c ≤ 'f') || ('A' ≤ c && c ≤ 'F')

/-- A non-empty, all-decimal-digit character run. -/
def digitsOnly (cs : List Char) : Bool :=
  !cs.isEmpty && cs.all isDigitChar

/-- Exponent digits with an optional single leading sign. -/
def signedDigits (cs : List Char) : Bool :=
  match cs with
  | c :: t => if c = '+' || c = '-' then digitsOnly t else digitsOnly cs
  | [] => false

/-- Optional decimal exponent part: empty, or `e`/`E` followed by signed
digits. -/
def expOk (cs : List Char) : Bool :=
  match cs with
  | [] => true
  | c :: t => (c = 'e' || c = 'E') && signedDigits t

/-- Mandatory binary exponent of a hexadecimal float: `p`/`P` followed by
signed digits. -/
def pExpOk (cs : List Char) : Bool :=
  match cs with
  | [] => false
  | c :: t => (c = 'p' || c = 'P') && signedDigits t

/-- Mantissa-plus-exponent body shared by the decimal and hexadecimal
forms: a digit run, an optional point with a further digit run (at least
one digit in total), then the exponent form `ef`. -/
def mantissaExpWith (isDig : Char → Bool) (ef : List Char → Bool)
    (cs : List Char) : Bool :=
  let ip := cs.takeWhile isDig
  match cs.dropWhile isDig with
  | c :: t =>
      if c = '.' then
        (!ip.isEmpty || !(t.takeWhile isDig).isEmpty) && ef (t.dropWhile isDig)
      else
        !ip.isEmpty && ef (c :: t)
  | [] => !ip.isEmpty && ef []

/-- Decimal float body. -/
def decBody (cs : List Char) : Bool :=
  mantissaExpWith isDigitChar expOk cs

/-- Hexadecimal float body (after the `0x`/`0X` marker). -/
def hexBody (cs : List Char) : Bool :=
  mantissaExpWith isHexDigitChar pExpOk cs

/-- Case-insensitive comparison against an all-lowercase target. -/
def lowerEq (cs target : List Char) : Bool :=
  cs.map Char.toLower == target

/-- Drop one leading sign character, if any. -/
def stripSign (cs : List Char) : List Char :=
  match cs with
  | c :: t => if c = '+' || c = '-' then t else cs
  | [] => []

/-- Whether the characters start with the hexadecimal marker `0x`/`0X`. -/
def isHexMarked (cs : List Char) : Bool :=
  match cs with
  | c0 :: c1 :: _ => c0 = '0' && (c1 = 'x' || c1 = 'X')
  | _ => false

/-- Modelled from the Go standard library: whether `strconv.ParseFloat(s, 64)`
succeeds.  Accepts `NaN` (unsigned), optionally signed `Inf`/`Infinity`
(all case-insensitive), and optionally signed decimal or hexadecimal
floating-point numbers.  Go 1.13 underscore digit separators are not
modelled; no token considered in this development contains one. -/
def goParseFloatOk (s : String) : Bool :=
  let cs := s.data
  if cs.isEmpty then false
  else if lowerEq cs ['n', 'a', 'n'] then true
  else
    let body := stripSign cs
    if lowerEq body ['i', 'n', 'f'] ||
        lowerEq body ['i', 'n', 'f', 'i', 'n', 'i', 't', 'y'] then true
    else if isHexMarked body then hexBody (body.drop 2)
    else decBody body

/-- Model of `addSuffixIfArgIsNumber` (main.go): append the suffix exactly
when `strconv.ParseFloat(s, 64)` reports no error. -/
def addSuffixIfArgIsNumber (s sfx : String) : String :=
  if goParseFloatOk s then s ++ sfx else s

/-! ### Model of time.ParseDuration -/

/-- Numeric value of a decimal digit run. -/
def digitsVal (cs : List Char) : Nat :=
  cs.foldl (fun acc c => acc * 10 + (c.toNat - '0'.toNat)) 0

/-- The unit map of Go's `time.ParseDuration`, as an association list of
unit strings and their length in nanoseconds. -/
def unitTable : List (String × Nat) :=
  [("ns", 1), ("us", 1000), ("µs", 1000), ("μs", 1000),
   ("ms", 1000000), ("s", 1000000000), ("m", 60000000000),
   ("h", 3600000000000)]

/-- A character that belongs to a unit token: anything until the next
digit or point (mirrors the unit scan in `time.ParseDuration`). -/
def isUnitChar (c : Char) : Bool :=
  !(isDigitChar c || c = '.')

/-- Modelled from the Go standard library: the component loop of
`time.ParseDuration`.  Each component is an integer digit run, an
optional point and fractional digit run (at least one digit in total),
and a mandatory known unit; component values accumulate.  The fractional
contribution, which Go computes as `float64(f) * (float64(unit)/scale)`
truncated to an integer, is modelled by the integer division
`f * unit / scale`; the two agree on every token considered here.
Overflow checks are not modelled.  Each iteration consumes at least one
character, so fuel equal to the length of the input plus one is never
exhausted. -/
def parseDurationLoop : Nat → List Char → Nat → Option Nat
  | 0, _, _ => none
  | _ + 1, [], acc => some acc
  | fuel + 1, cs, acc =>
      let ip := cs.takeWhile isDigitChar
      let r1 := cs.dropWhile isDigitChar
      let fr : List Char × List Char :=
        match r1 with
        | '.' :: t => (t.takeWhile isDigitChar, t.dropWhile isDigitChar)
        | _ => ([], r1)
      if ip.isEmpty && fr.1.isEmpty then none
      else
        let u := fr.2.takeWhile isUnitChar
        let rest := fr.2.dropWhile isUnitChar
        if u.isEmpty then none
        else
          match unitTable.lookup (String.mk u) with
          | none => none
          | some mult =>
              let scale := 10 ^ fr.1.length
              let v := digitsVal ip * mult + digitsVal fr.1 * mult / scale
              parseDurationLoop fuel rest (acc + v)

/-- Modelled from the Go standard library: `time.ParseDuration`.  An
optional sign, the special case `"0"`, then one or more components.
Returns the duration in nanoseconds, or `none` where Go returns an
error. -/
def parseDuration (s : String) : Option Int :=
  let sg : Bool × List Char :=
    match s.data with
    | '-' :: t => (true, t)
    | '+' :: t => (false, t)
    | t => (false, t)
  if sg.2 = ['0'] then some 0
  else if sg.2.isEmpty then none
  else
    match parseDurationLoop (sg.2.length + 1) sg.2 0 with
    | none => none
    | some v => some (if sg.1 then -(v : Int) else (v : Int))

/-- The error message Go's `time.ParseDuration` produces for an invalid
token (the token is rendered with `strconv.Quote`; every token considered
here is printable, so quoting just wraps it in double quotes). -/
def invalidDurationErr (tok : String) : String :=
  "time: invalid duration " ++ "\"" ++ tok ++ "\""

/-- The token loop of `rootCmd.RunE` (main.go): normalize each token with
`addSuffixIfArgIsNumber(item, "s")`, parse it with `time.ParseDuration`,
fail on the first error, and collect the parsed durations in order. -/
def parseTokens : List String → Except String (List Int)
  | [] => .ok []
  | t :: ts =>
      let t2 := addSuffixIfArgIsNumber t "s"
      match parseDuration t2 with
      | none => .error (invalidDurationErr t2)
      | some d =>
          match parseTokens ts with
          | .error e => .error e
          | .ok ds => .ok (d :: ds)

/-- The Duration Sequencer of `rootCmd.RunE`: tokenize the single
positional argument and parse every token. -/
def parseTimerArgs (arg : String) : Except String (List Int) :=
  parseTokens (splitTimerArgString arg)

/-! ### The Stage Runner: model struct, timer component and Update -/

/-- Nanoseconds per millisecond. -/
def nsPerMs : Int := 1000000

/-- Model of `time.Duration.Milliseconds()`: `int64` division by `1e6`,
which truncates toward zero. -/
def goMs (d : Int) : Int :=
  Int.tdiv d nsPerMs

/-- Model of `timerInterval` (main.go): 100 milliseconds for stage
durations under one minute, otherwise 1 second. -/
def timerInterval (d : Int) : Int :=
  if d < 60000000000 then 100000000 else 1000000000

/-- Modelled from the charmbracelet bubbles timer component: the fields of
`timer.Model` that the program observes (remaining timeout, tick interval,
running flag).  Timer message identifiers are not modelled: every claim
below concerns ticks of the session's current timer. -/
structure TimerModel where
  timeout : Int
  interval : Int
  running : Bool
deriving DecidableEq

/-- Modelled from the bubbles timer component: `timer.New(d,
timer.WithInterval(i))` yields a running timer with full timeout. -/
def timerNew (d i : Int) : TimerModel :=
  { timeout := d, interval := i, running := true }

/-- Modelled from the bubbles timer component: `Running()` is true while
the timer is started and has not timed out (`Timeout <= 0`). -/
def timerRunning (t : TimerModel) : Bool :=
  t.running && decide (0 < t.timeout)

/-- The command a bubbles timer returns from processing a tick: either
nothing (timer not running), or the batch of the next scheduled tick and,
when the decremented timeout has reached zero, the one-shot timeout
emission. -/
inductive TimerCmd
  | noneC
  | tickNext (timedout : Bool)
deriving DecidableEq

/-- Modelled from the bubbles timer component: processing a `TickMsg`
while `Running()` decrements the timeout by one interval, schedules the
next tick and emits the timeout event when the new timeout is not
positive; otherwise the message is ignored. -/
def timerTickUpdate (t : TimerModel) : TimerModel × TimerCmd :=
  if timerRunning t then
    let t2 := { t with timeout := t.timeout - t.interval }
    (t2, .tickNext (decide (t2.timeout ≤ 0)))
  else (t, .noneC)

/-- The `model` struct of main.go.  `progress.Model` is represented by
the one field the program manipulates, its width; the package-level
`winHeight` variable mutated by `Update` is carried as a field.  The
gradient/animation internals of the progress bar and the rendered `View`
are presentational and not modelled. -/
structure Model where
  name : String
  altscreen : Bool
  startTimeFormat : String
  durations : List Int
  state : Nat
  passed : Int
  start : Int
  timer : TimerModel
  progressWidth : Int
  winHeight : Int
  quitting : Bool
  interrupting : Bool
deriving DecidableEq

/-- The messages `model.Update` dispatches on: `timer.TickMsg`,
`tea.WindowSizeMsg`, `timer.StartStopMsg`, `timer.TimeoutMsg`,
`progress.FrameMsg` and `tea.KeyMsg` (carried as the key's name). -/
inductive Msg
  | tick
  | windowSize (w h : Int)
  | startStop (running : Bool)
  | timeoutMsg
  | frame
  | key (k : String)
deriving DecidableEq

/-- The commands `model.Update` returns: nil, `tea.Quit`,
`m.timer.Start()`, or the tick-branch batch
`tea.Batch(m.progress.SetPercent(float64(pct)/100), timerCmd)`, carried
as the integer percent together with the timer's command. -/
inductive Cmd
  | noneC
  | quit
  | startTimer
  | tickBatch (pct : Int) (tc : TimerCmd)
deriving DecidableEq

/-- The `padding` constant of main.go. -/
def padding : Int := 2

/-- The `maxWidth` constant of main.go. -/
def maxWidth : Int := 80

/-- Model of `model.Update` (main.go).  `now` stands for the value
`time.Now()` would return during this call.  The result is `none` where
Go panics: indexing `m.durations[m.state]` out of range, or the integer
division by `m.durations[m.state].Milliseconds()` when that millisecond
count is zero. -/
def update (now : Int) (m : Model) (msg : Msg) : Option (Model × Cmd) :=
  match msg with
  | .tick =>
      let passed := m.passed + m.timer.interval
      if h : m.state < m.durations.length then
        let d := m.durations.get ⟨m.state, h⟩
        if goMs d = 0 then none
        else
          let pct := Int.tdiv (goMs passed * 100) (goMs d)
          let tr := timerTickUpdate m.timer
          some ({ m with passed := passed, timer := tr.1 },
            .tickBatch pct tr.2)
      else none
  | .windowSize w hgt =>
      let m2 := { m with progressWidth := w - padding * 2 - 4, winHeight := hgt }
      let m3 :=
        if !m2.altscreen && decide (maxWidth < m2.progressWidth) then
          { m2 with progressWidth := maxWidth }
        else m2
      some (m3, .noneC)
  | .startStop b =>
      some ({ m with timer := { m.timer with running := b } }, .noneC)
  | .timeoutMsg =>
      if (m.state : Int) = (m.durations.length : Int) - 1 then
        some ({ m with quitting := true }, .quit)
      else
        let st := m.state + 1
        if h : st < m.durations.length then
          let d := m.durations.get ⟨st, h⟩
          some ({ m with
                    state := st, start := now, passed := 0,
                    timer := timerNew d (timerInterval d) },
            .startTimer)
        else none
  | .frame => some (m, .noneC)
  | .key k =>
      if k = "esc" || k = "q" then some ({ m with quitting := true }, .quit)
      else if k = "ctrl+c" then some ({ m with interrupting := true }, .quit)
      else some (m, .noneC)

/-- The startup path of `rootCmd.RunE` (main.go): parse the timer
argument and construct the initial model.  The outer `Option` is `none`
where Go would panic (`durations[0]` on an empty slice, which no
tokenization can actually produce); the inner `Except` is the error
`RunE` returns, which makes `main` exit with status 1 before any UI is
shown.  The progress bar's default width in bubbles is 40. -/
def runEInit (now : Int) (nm : String) (alts : Bool) (fmt arg : String) :
    Option (Except String Model) :=
  match parseTimerArgs arg with
  | .error e => some (.error e)
  | .ok durations =>
      if h : 0 < durations.length then
        let d0 := durations.get ⟨0, h⟩
        some (.ok {
          name := nm, altscreen := alts, startTimeFormat := fmt,
          durations := durations, state := 0, passed := 0, start := now,
          timer := timerNew d0 (timerInterval d0),
          progressWidth := 40, winHeight := 0,
          quitting := false, interrupting := false })
      else none

/-- The exit path of `rootCmd.RunE` after the interactive loop ends: an
interrupted session yields the error `"interrupted"` (so `main` exits
with status 1 and nothing is printed); otherwise the name (followed by a
space, omitted when empty) and `"finished!\n"` are printed and `RunE`
returns nil. -/
def finishRun (nm : String) (m : Model) : Except String String :=
  if m.interrupting then .error "interrupted"
  else .ok ((if nm = "" then "" else nm ++ " ") ++ "finished!\n")

/-- The exit status of `main`: 1 when `rootCmd.Execute` reports an error,
0 otherwise. -/
def mainExitCode : Except String String → Nat
  | .error _ => 1
  | .ok _ => 0

/-- Iterated delivery of tick messages to `update`, keeping only the
model (`none` once any step panics). -/
def iterateTick (now : Int) (m : Model) : Nat → Option Model
  | 0 => some m
  | n + 1 =>
      match iterateTick now m n with
      | some mi => (update now mi .tick).map Prod.fst
      | none => none

/-- Which tick sequences the Runner can receive within one stage: tick 1
is scheduled by `Init`, and each later tick `j` is scheduled while tick
`j - 1` is processed, which the bubbles timer only does when it was still
`Running()` at that point, i.e. in the state after `j - 2` ticks.  So `n`
ticks can arrive before the stage's timeout event exactly when the timer
is still running in every state reached by at most `n - 2` ticks. -/
def ticksReceivable (now : Int) (m : Model) (n : Nat) : Prop :=
  ∀ i, i + 2 ≤ n → ∃ mi, iterateTick now m i = some mi ∧
    timerRunning mi.timer = true

/-! ### Helper lemmas about update -/

/-- The pure state transformation of a non-panicking tick. -/
def tickStep (m : Model) : Model :=
  { m with
      passed := m.passed + m.timer.interval,
      timer := (timerTickUpdate m.timer).1 }

theorem update_tick_eq (now : Int) (m : Model)
    (h : m.state < m.durations.length)
    (hz : goMs (m.durations.getD m.state 0) ≠ 0) :
    update now m .tick =
      some (tickStep m,
        .tickBatch
          (Int.tdiv (goMs (m.passed + m.timer.interval) * 100)
            (goMs (m.durations.getD m.state 0)))
          (timerTickUpdate m.timer).2) := by
  rw [List.getD_eq_getElem _ _ h] at hz ⊢
  simp only [update, tickStep]
  rw [dif_pos h, if_neg (by simpa using hz)]
  simp only [List.get_eq_getElem]

theorem update_timeout_last (now : Int) (m : Model)
    (h : (m.state : Int) = (m.durations.length : Int) - 1) :
    update now m .timeoutMsg = some ({ m with quitting := true }, .quit) := by
  simp only [update]
  rw [if_pos h]

theorem update_timeout_advance (now : Int) (m : Model)
    (h : m.state + 1 < m.durations.length) :
    update now m .timeoutMsg =
      some ({ m with
                state := m.state + 1, start := now, passed := 0,
                timer := timerNew (m.durations.getD (m.state + 1) 0)
                  (timerInterval (m.durations.getD (m.state + 1) 0)) },
        .startTimer) := by
  have hne : ¬ ((m.state : Int) = (m.durations.length : Int) - 1) := by
    omega
  rw [List.getD_eq_getElem _ _ h]
  simp only [update]
  rw [if_neg hne, dif_pos h]
  simp only [List.get_eq_getElem]

theorem update_key_q (now : Int) (m : Model) :
    update now m (.key "q") = some ({ m with quitting := true }, .quit) := by
  simp [update]

theorem update_key_esc (now : Int) (m : Model) :
    update now m (.key "esc") = some ({ m with quitting := true }, .quit) := by
  simp [update]

theorem update_key_ctrlc (now : Int) (m : Model) :
    update now m (.key "ctrl+c") =
      some ({ m with interrupting := true }, .quit) := by
  simp [update]

/-- Truncating and flooring division agree on non-negative operands. -/
theorem tdiv_eq_fdiv_of_nonneg {a b : Int} (ha : 0 ≤ a) (hb : 0 ≤ b) :
    Int.tdiv a b = Int.fdiv a b := by
  rw [Int.tdiv_eq_ediv ha hb, Int.fdiv_eq_ediv _ hb]

/-! ### Iterated ticks -/

theorem tickStep_state (m : Model) : (tickStep m).state = m.state := rfl

theorem tickStep_durations (m : Model) :
    (tickStep m).durations = m.durations := rfl

theorem tickStep_interval (m : Model) :
    (tickStep m).timer.interval = m.timer.interval := by
  simp only [tickStep, timerTickUpdate]
  split <;> rfl

theorem iterate_tickStep_state (m : Model) (n : Nat) :
    (tickStep^[n] m).state = m.state := by
  induction n with
  | zero => rfl
  | succ j ihj => rw [Function.iterate_succ_apply', tickStep_state, ihj]

theorem iterate_tickStep_durations (m : Model) (n : Nat) :
    (tickStep^[n] m).durations = m.durations := by
  induction n with
  | zero => rfl
  | succ j ihj => rw [Function.iterate_succ_apply', tickStep_durations, ihj]

theorem iterate_tickStep_interval (m : Model) (n : Nat) :
    (tickStep^[n] m).timer.interval = m.timer.interval := by
  induction n with
  | zero => rfl
  | succ j ihj => rw [Function.iterate_succ_apply', tickStep_interval, ihj]

theorem iterateTick_eq_iterate (now : Int) (m : Model) (n : Nat)
    (h : m.state < m.durations.length)
    (hz : goMs (m.durations.getD m.state 0) ≠ 0) :
    iterateTick now m n = some (tickStep^[n] m) := by
  induction n with
  | zero => rfl
  | succ k ih =>
      rw [iterateTick, ih]
      show (update now (tickStep^[k] m) .tick).map Prod.fst = _
      rw [update_tick_eq now (tickStep^[k] m)
          (by rw [iterate_tickStep_state, iterate_tickStep_durations]; exact h)
          (by rw [iterate_tickStep_state, iterate_tickStep_durations]; exact hz)]
      rw [Function.iterate_succ_apply']
      rfl

theorem iterate_tickStep_passed (m : Model) (n : Nat) :
    (tickStep^[n] m).passed = m.passed + n * m.timer.interval := by
  induction n with
  | zero => simp
  | succ k ih =>
      rw [Function.iterate_succ_apply']
      show (tickStep^[k] m).passed + (tickStep^[k] m).timer.interval = _
      rw [ih, iterate_tickStep_interval]
      push_cast
      ring

/-- While the timer has been running at every earlier state, each tick
decrements the remaining timeout by exactly one interval. -/
theorem iterate_tickStep_timeout (m : Model) (n : Nat)
    (hrun : ∀ j, j < n → timerRunning (tickStep^[j] m).timer = true) :
    (tickStep^[n] m).timer.timeout =
      m.timer.timeout - n * m.timer.interval := by
  induction n with
  | zero => simp
  | succ k ih =>
      have hk := hrun k (Nat.lt_succ_self k)
      rw [Function.iterate_succ_apply']
      show ((timerTickUpdate (tickStep^[k] m).timer).1).timeout = _
      rw [timerTickUpdate, if_pos hk]
      show (tickStep^[k] m).timer.timeout - (tickStep^[k] m).timer.interval = _
      rw [ih (fun j hj => hrun j (Nat.lt_succ_of_lt hj)),
        iterate_tickStep_interval]
      push_cast
      ring

/-! ### Characters of tokens accepted by ParseFloat -/

/-- Every character that can occur in a string `strconv.ParseFloat`
accepts: digits and hexadecimal digits, signs, the point, exponent and
hexadecimal markers, and the letters of `inf`, `infinity` and `nan` in
either case.  The duration unit letters `s`, `m` and `h` are not among
them. -/
def allowedFloatChar (c : Char) : Bool :=
  isHexDigitChar c || c = '+' || c = '-' || c = '.' ||
  c = 'e' || c = 'E' || c = 'x' || c = 'X' || c = 'p' || c = 'P' ||
  c.toLower = 'i' || c.toLower = 'n' || c.toLower = 'f' ||
  c.toLower = 't' || c.toLower = 'y' || c.toLower = 'a'

theorem digitsOnly_chars {cs : List Char} (h : digitsOnly cs = true) :
    ∀ c ∈ cs, isDigitChar c = true := by
  intro c hc
  simp only [digitsOnly, Bool.and_eq_true, List.all_eq_true] at h
  exact h.2 c hc

theorem signedDigits_chars {cs : List Char} (h : signedDigits cs = true) :
    ∀ c ∈ cs, c = '+' ∨ c = '-' ∨ isDigitChar c = true := by
  intro c hc
  cases cs with
  | nil => cases hc
  | cons c0 t =>
      simp only [signedDigits] at h
      split at h
      · rename_i hsign
        simp only [Bool.or_eq_true, decide_eq_true_eq] at hsign
        rcases List.mem_cons.mp hc with rfl | hct
        · rcases hsign with h1 | h1
          · exact Or.inl h1
          · exact Or.inr (Or.inl h1)
        · exact Or.inr (Or.inr (digitsOnly_chars h c hct))
      · exact Or.inr (Or.inr (digitsOnly_chars h c hc))

theorem expOk_chars {cs : List Char} (h : expOk cs = true) :
    ∀ c ∈ cs, allowedFloatChar c = true := by
  intro c hc
  cases cs with
  | nil => cases hc
  | cons c0 t =>
      simp only [expOk, Bool.and_eq_true, Bool.or_eq_true,
        decide_eq_true_eq] at h
      rcases List.mem_cons.mp hc with rfl | hct
      · rcases h.1 with rfl | rfl <;> decide
      · rcases signedDigits_chars h.2 c hct with rfl | rfl | hd
        · decide
        · decide
        · simp [allowedFloatChar, isHexDigitChar, hd]

theorem pExpOk_chars {cs : List Char} (h : pExpOk cs = true) :
    ∀ c ∈ cs, allowedFloatChar c = true := by
  intro c hc
  cases cs with
  | nil => cases hc
  | cons c0 t =>
      simp only [pExpOk, Bool.and_eq_true, Bool.or_eq_true,
        decide_eq_true_eq] at h
      rcases List.mem_cons.mp hc with rfl | hct
      · rcases h.1 with rfl | rfl <;> decide
      · rcases signedDigits_chars h.2 c hct with rfl | rfl | hd
        · decide
        · decide
        · simp [allowedFloatChar, isHexDigitChar, hd]

theorem mantissaExpWith_chars {isDig : Char → Bool} {ef : List Char → Bool}
    {cs : List Char}
    (hef : ∀ ds, ef ds = true → ∀ c ∈ ds, allowedFloatChar c = true)
    (h : mantissaExpWith isDig ef cs = true) :
    ∀ c ∈ cs, isDig c = true ∨ c = '.' ∨ allowedFloatChar c = true := by
  intro c hc
  have hsplit : cs.takeWhile isDig ++ cs.dropWhile isDig = cs :=
    List.takeWhile_append_dropWhile isDig cs
  simp only [mantissaExpWith] at h
  rcases hdw : cs.dropWhile isDig with _ | ⟨c0, t⟩ <;> rw [hdw] at h hsplit <;>
    dsimp only at h
  · rw [← hsplit, List.append_nil] at hc
    exact Or.inl (List.mem_takeWhile_imp hc)
  · rw [← hsplit] at hc
    rcases List.mem_append.mp hc with hip | hrest
    · exact Or.inl (List.mem_takeWhile_imp hip)
    · split at h
      · rename_i hdot
        subst hdot
        rcases List.mem_cons.mp hrest with rfl | hct
        · exact Or.inr (Or.inl rfl)
        · simp only [Bool.and_eq_true] at h
          have htsplit : t.takeWhile isDig ++ t.dropWhile isDig = t :=
            List.takeWhile_append_dropWhile isDig t
          rw [← htsplit] at hct
          rcases List.mem_append.mp hct with hfp | hexp
          · exact Or.inl (List.mem_takeWhile_imp hfp)
          · exact Or.inr (Or.inr (hef _ h.2 c hexp))
      · simp only [Bool.and_eq_true] at h
        exact Or.inr (Or.inr (hef _ h.2 c hrest))

theorem stripSign_shape (cs : List Char) :
    stripSign cs = cs ∨
      ∃ c0, (c0 = '+' ∨ c0 = '-') ∧ cs = c0 :: stripSign cs := by
  cases cs with
  | nil => exact Or.inl rfl
  | cons c0 t =>
      simp only [stripSign]
      split
      · rename_i hsign
        simp only [Bool.or_eq_true, decide_eq_true_eq] at hsign
        exact Or.inr ⟨c0, hsign, rfl⟩
      · exact Or.inl rfl

theorem lowerEq_chars {cs target : List Char} (h : lowerEq cs target = true) :
    ∀ c ∈ cs, c.toLower ∈ target := by
  intro c hc
  simp only [lowerEq, beq_iff_eq] at h
  rw [← h]
  exact List.mem_map_of_mem Char.toLower hc

/-- Every character of a string accepted by `strconv.ParseFloat` is an
`allowedFloatChar`. -/
theorem goParseFloatOk_chars (s : String) (h : goParseFloatOk s = true) :
    ∀ c ∈ s.data, allowedFloatChar c = true := by
  intro c hc
  simp only [goParseFloatOk] at h
  split at h
  · exact absurd h (by simp)
  · split at h
    · rename_i hnan
      have := lowerEq_chars hnan c hc
      simp only [List.mem_cons, List.not_mem_nil, or_false] at this
      simp only [allowedFloatChar, Bool.or_eq_true, decide_eq_true_eq]
      tauto
    · have hcbody : c ∈ stripSign s.data ∨ allowedFloatChar c = true := by
        rcases stripSign_shape s.data with heq | ⟨sc, hsc, heq⟩
        · rw [heq]
          exact Or.inl hc
        · rw [heq] at hc
          rcases List.mem_cons.mp hc with rfl | hct
          · rcases hsc with rfl | rfl <;> exact Or.inr (by decide)
          · exact Or.inl hct
      rcases hcbody with hcb | hdone
      · split at h
        · rename_i hinf
          simp only [Bool.or_eq_true] at hinf
          rcases hinf with h1 | h1 <;>
            · have := lowerEq_chars h1 c hcb
              simp only [List.mem_cons, List.not_mem_nil, or_false] at this
              simp only [allowedFloatChar, Bool.or_eq_true, decide_eq_true_eq]
              tauto
        · split at h
          · rename_i hhex
            rcases hbs : stripSign s.data with _ | ⟨b0, bt⟩ <;>
              rw [hbs] at hhex hcb h
            · cases hcb
            · rcases hbt : bt with _ | ⟨b1, brest⟩ <;> rw [hbt] at hhex hcb h
              · simp [isHexMarked] at hhex
              · simp only [isHexMarked, Bool.and_eq_true, decide_eq_true_eq,
                  Bool.or_eq_true] at hhex
                rcases List.mem_cons.mp hcb with rfl | hc1
                · rw [hhex.1]
                  decide
                · rcases List.mem_cons.mp hc1 with rfl | hc2
                  · rcases hhex.2 with rfl | rfl <;> decide
                  · simp only [List.drop_succ_cons, List.drop_zero] at h
                    have := mantissaExpWith_chars
                      (fun ds hds => pExpOk_chars hds) h c hc2
                    rcases this with hdg | rfl | hal
                    · simp [allowedFloatChar, hdg]
                    · decide
                    · exact hal
          · have := mantissaExpWith_chars
              (fun ds hds => expOk_chars hds) h c hcb
            rcases this with hdg | rfl | hal
            · simp [allowedFloatChar, isHexDigitChar, hdg]
            · decide
            · exact hal
      · exact hdone

/-- A token containing a duration-unit letter `s`, `m` or `h` is never
accepted by `strconv.ParseFloat`. -/
theorem goParseFloatOk_eq_false_of_unit_letter (s : String) (c : Char)
    (hc : c ∈ s.data) (hbad : c = 's' ∨ c = 'm' ∨ c = 'h') :
    goParseFloatOk s = false := by
  cases hok : goParseFloatOk s with
  | false => rfl
  | true =>
      exfalso
      have hall := goParseFloatOk_chars s hok c hc
      rcases hbad with rfl | rfl | rfl <;> exact absurd hall (by decide)

/-! ### Terminal-flag permanence -/

/-- No branch of `model.Update` ever clears the `quitting` or
`interrupting` flag. -/
theorem update_preserves_terminal (now : Int) (m : Model) (msg : Msg)
    (m2 : Model) (c : Cmd) (h : update now m msg = some (m2, c)) :
    (m.quitting = true → m2.quitting = true) ∧
    (m.interrupting = true → m2.interrupting = true) := by
  cases msg <;> simp only [update] at h
  case tick =>
      split at h
      · split at h
        · exact absurd h (by simp)
        · rw [Option.some_inj, Prod.mk.injEq] at h
          rw [← h.1]
          exact ⟨fun hq => hq, fun hi => hi⟩
      · exact absurd h (by simp)
  case windowSize w hgt =>
      rw [Option.some_inj, Prod.mk.injEq] at h
      rw [← h.1]
      split <;> exact ⟨fun hq => hq, fun hi => hi⟩
  case startStop b =>
      rw [Option.some_inj, Prod.mk.injEq] at h
      rw [← h.1]
      exact ⟨fun hq => hq, fun hi => hi⟩
  case timeoutMsg =>
      split at h
      · rw [Option.some_inj, Prod.mk.injEq] at h
        rw [← h.1]
        exact ⟨fun _ => rfl, fun hi => hi⟩
      · split at h
        · rw [Option.some_inj, Prod.mk.injEq] at h
          rw [← h.1]
          exact ⟨fun hq => hq, fun hi => hi⟩
        · exact absurd h (by simp)
  case frame =>
      rw [Option.some_inj, Prod.mk.injEq] at h
      rw [← h.1]
      exact ⟨fun hq => hq, fun hi => hi⟩
  case key k =>
      split at h
      · rw [Option.some_inj, Prod.mk.injEq] at h
        rw [← h.1]
        exact ⟨fun _ => rfl, fun hi => hi⟩
      · split at h
        · rw [Option.some_inj, Prod.mk.injEq] at h
          rw [← h.1]
          exact ⟨fun hq => hq, fun _ => rfl⟩
        · rw [Option.some_inj, Prod.mk.injEq] at h
          rw [← h.1]
          exact ⟨fun hq => hq, fun hi => hi⟩

/-! ### Concrete sessions used as witnesses and counterexamples -/

/-- A freshly started session over the stage list `[2s, 3s]`. -/
def mStages : Model :=
  { name := "", altscreen := false, startTimeFormat := "",
    durations := [2000000000, 3000000000], state := 0, passed := 5,
    start := 0, timer := timerNew 2000000000 100000000,
    progressWidth := 40, winHeight := 0,
    quitting := false, interrupting := false }

/-- A terminal (quitting) session over one 10-second stage. -/
def mQuit : Model :=
  { mStages with
      durations := [10000000000], passed := 0,
      timer := timerNew 10000000000 100000000, quitting := true }

/-- A running session over one 10-second stage with 3.17s accumulated,
about to process the tick that brings it to 3.27s. -/
def mTen : Model :=
  { mStages with
      durations := [10000000000], passed := 3170000000,
      timer := timerNew 10000000000 100000000 }

/-- The initial session the program builds for the timer spec `"0"`. -/
def mZero : Model :=
  { mStages with
      durations := [0], passed := 0,
      timer := timerNew 0 100000000 }

/-- A freshly started session over one 250-millisecond stage (100ms tick
interval). -/
def m250 : Model :=
  { mStages with
      durations := [250000000], passed := 0,
      timer := timerNew 250000000 100000000 }

/-- The session `m250` after three ticks. -/
def m250after : Model :=
  { m250 with
      passed := 300000000,
      timer := { timeout := -50000000, interval := 100000000, running := true } }

/-! ### The claims -/

/-- C1: on a Timeout event, a session at the last stage index sets the
quitting flag and signals the loop to stop with no index change; any
other session advances the stage index by one, resets elapsed to zero,
records the current wall clock as the stage start, installs a fresh
countdown over the next stage's full duration with the tick cadence
recomputed from that duration, and starts it. -/
theorem timeoutTransition (now : Int) (m : Model)
    (h : m.state < m.durations.length) :
    ((m.state : Int) = (m.durations.length : Int) - 1 →
        update now m .timeoutMsg =
          some ({ m with quitting := true }, .quit)) ∧
    ((m.state : Int) ≠ (m.durations.length : Int) - 1 →
        update now m .timeoutMsg =
          some ({ m with
                    state := m.state + 1, passed := 0, start := now,
                    timer := timerNew (m.durations.getD (m.state + 1) 0)
                      (timerInterval (m.durations.getD (m.state + 1) 0)) },
            .startTimer)) :=
  ⟨fun he => update_timeout_last now m he,
   fun hne => update_timeout_advance now m (by omega)⟩

/-- Witness for C1 on the stage list `[2s, 3s]`: the first Timeout
advances to stage 1 with a fresh 3-second countdown, the second sets the
quitting flag and stops the loop. -/
theorem timeoutTransitionWitness :
    update 7 mStages .timeoutMsg =
      some ({ mStages with
                state := 1, passed := 0, start := 7,
                timer := timerNew 3000000000 (timerInterval 3000000000) },
        .startTimer) ∧
    update 7 { mStages with state := 1 } .timeoutMsg =
      some ({ mStages with state := 1, quitting := true }, .quit) :=
  ⟨(timeoutTransition 7 mStages (by decide)).2 (by decide),
   (timeoutTransition 7 { mStages with state := 1 } (by decide)).1 (by decide)⟩

/-- C2 counterexample: `model.Update` does not gate tick processing on
the terminal flags.  In a quitting session, processing a further Tick
still mutates the state: elapsed grows by one interval, so the session
state is not left unchanged. -/
theorem tickAfterTerminalChangesState :
    mQuit.quitting = true ∧
    (update 0 mQuit .tick).map Prod.fst =
      some { mQuit with
               passed := 100000000,
               timer := { timeout := 9900000000, interval := 100000000,
                          running := true } } ∧
    (update 0 mQuit .tick).map Prod.fst ≠ some mQuit := by
  refine ⟨rfl, by decide, by decide⟩

/-- C2 (amended): the terminal flags themselves are permanent — no event
processed by `model.Update` ever clears `quitting` or `interrupting`.
(The absence of post-terminal ticks is enforced by the loop stopping on
`tea.Quit`, not by `Update` filtering them.) -/
theorem terminalFlagsPermanent (now : Int) (m : Model) (msg : Msg)
    (m2 : Model) (c : Cmd) (h : update now m msg = some (m2, c)) :
    (m.quitting = true → m2.quitting = true) ∧
    (m.interrupting = true → m2.interrupting = true) :=
  update_preserves_terminal now m msg m2 c h

/-- Witness for the amended C2 at a concrete quitting session and a Tick
event. -/
theorem terminalFlagsPermanentWitness :
    (mQuit.quitting = true →
        ({ mQuit with
             passed := 100000000,
             timer := { timeout := 9900000000, interval := 100000000,
                        running := true } } : Model).quitting = true) ∧
    (mQuit.interrupting = true →
        ({ mQuit with
             passed := 100000000,
             timer := { timeout := 9900000000, interval := 100000000,
                        running := true } } : Model).interrupting = true) :=
  terminalFlagsPermanent 0 mQuit .tick
    { mQuit with
        passed := 100000000,
        timer := { timeout := 9900000000, interval := 100000000,
                   running := true } }
    (.tickBatch 1 (.tickNext false)) (by decide)

/-- C3: ctrl+c sets the interrupting flag and stops the loop; the run
then ends in the error `"interrupted"` with exit status 1 and no
finished message.  A plain quit (esc or q) performs exactly the same
transition as a last-stage Timeout — it sets `quitting`, so natural
completion and plain quit are indistinguishable — and any
non-interrupted run prints `"<name> finished!"` (name segment omitted
when empty) and exits with status 0. -/
theorem exitBehavior :
    (∀ (now : Int) (m : Model),
        update now m (.key "ctrl+c") =
          some ({ m with interrupting := true }, .quit)) ∧
    (∀ (now : Int) (m : Model),
        update now m (.key "q") =
          some ({ m with quitting := true }, .quit)) ∧
    (∀ (now : Int) (m : Model),
        update now m (.key "esc") =
          some ({ m with quitting := true }, .quit)) ∧
    (∀ (nm : String) (m : Model), m.interrupting = true →
        finishRun nm m = .error "interrupted" ∧
        mainExitCode (finishRun nm m) = 1) ∧
    (∀ (nm : String) (m : Model), m.interrupting = false →
        finishRun nm m =
          .ok ((if nm = "" then "" else nm ++ " ") ++ "finished!\n") ∧
        mainExitCode (finishRun nm m) = 0) ∧
    (∀ (now : Int) (m : Model),
        (m.state : Int) = (m.durations.length : Int) - 1 →
        update now m .timeoutMsg = update now m (.key "q")) := by
  refine ⟨update_key_ctrlc, update_key_q, update_key_esc, ?_, ?_, ?_⟩
  · intro nm m hi
    unfold finishRun
    rw [if_pos hi]
    exact ⟨rfl, rfl⟩
  · intro nm m hi
    unfold finishRun
    rw [if_neg (by simp [hi])]
    exact ⟨rfl, rfl⟩
  · intro now m hlast
    rw [update_timeout_last now m hlast, update_key_q]

/-- Witness for C3 at concrete sessions with and without the
interrupting flag. -/
theorem exitBehaviorWitness :
    update 0 mStages (.key "ctrl+c") =
      some ({ mStages with interrupting := true }, .quit) ∧
    finishRun "work" { mStages with interrupting := true } =
      .error "interrupted" ∧
    mainExitCode (finishRun "work" { mStages with interrupting := true })
      = 1 ∧
    finishRun "work" mStages = .ok "work finished!\n" ∧
    mainExitCode (finishRun "work" mStages) = 0 ∧
    finishRun "" mStages = .ok "finished!\n" ∧
    update 0 { mStages with state := 1 } .timeoutMsg =
      update 0 { mStages with state := 1 } (.key "q") := by
  have h4 := exitBehavior.2.2.2.1 "work"
    { mStages with interrupting := true } rfl
  have h5 := exitBehavior.2.2.2.2.1 "work" mStages rfl
  have h6 := exitBehavior.2.2.2.2.1 "" mStages rfl
  have h7 := exitBehavior.2.2.2.2.2 0 { mStages with state := 1 } (by decide)
  exact ⟨exitBehavior.1 0 mStages, h4.1, h4.2, h5.1, h5.2, h6.1, h7⟩

/-- C4: on each tick the emitted progress percent is the floor of
`elapsed_ms * 100 / stage_ms` over the tick-accumulated elapsed time
(the division Go performs truncates, which on the non-negative values
here is the floor).  `SetPercent` then receives this integer divided by
100 as the display fraction. -/
theorem progressPercentFloor (now : Int) (m : Model)
    (h : m.state < m.durations.length)
    (hpos : 0 < goMs (m.durations.getD m.state 0))
    (hel : 0 ≤ m.passed + m.timer.interval) :
    update now m .tick =
      some (tickStep m,
        .tickBatch
          (Int.fdiv (goMs (m.passed + m.timer.interval) * 100)
            (goMs (m.durations.getD m.state 0)))
          (timerTickUpdate m.timer).2) := by
  rw [update_tick_eq now m h (by omega)]
  have hms : 0 ≤ goMs (m.passed + m.timer.interval) :=
    Int.tdiv_nonneg hel (by norm_num [nsPerMs])
  have hnum : 0 ≤ goMs (m.passed + m.timer.interval) * 100 :=
    mul_nonneg hms (by norm_num)
  rw [tdiv_eq_fdiv_of_nonneg hnum (le_of_lt hpos)]

/-- Witness for C4: a 10-second stage with 3.27s elapsed after the tick
displays 32 percent, not 33. -/
theorem progressPercentFloorWitness :
    update 0 mTen .tick =
      some (tickStep mTen, .tickBatch 32 (.tickNext false)) ∧
    Int.fdiv (goMs (3170000000 + 100000000) * 100) (goMs 10000000000)
      = 32 := by
  refine ⟨?_, by decide⟩
  have h := progressPercentFloor 0 mTen (by decide) (by decide) (by decide)
  exact h

/-- C5: the requested tick interval is 100ms for stage durations
strictly under one minute and 1s for durations of a minute or more
(45s and 59.999s give 100ms, 60s gives 1s), and on every stage
transition the interval is recomputed from the incoming stage's
duration. -/
theorem tickCadence :
    timerInterval 45000000000 = 100000000 ∧
    timerInterval 59999000000 = 100000000 ∧
    timerInterval 60000000000 = 1000000000 ∧
    (∀ d : Int, d < 60000000000 → timerInterval d = 100000000) ∧
    (∀ d : Int, 60000000000 ≤ d → timerInterval d = 1000000000) ∧
    (∀ (now : Int) (m : Model), m.state + 1 < m.durations.length →
        update now m .timeoutMsg =
          some ({ m with
                    state := m.state + 1, passed := 0, start := now,
                    timer := timerNew (m.durations.getD (m.state + 1) 0)
                      (timerInterval (m.durations.getD (m.state + 1) 0)) },
            .startTimer)) := by
  refine ⟨rfl, rfl, rfl, fun d hd => ?_, fun d hd => ?_,
    fun now m h => update_timeout_advance now m h⟩
  · simp [timerInterval, hd]
  · simp [timerInterval, not_lt.mpr hd]

/-- Witness for C5: the boundary instances, and the transition into the
3-second stage of `[2s, 3s]` installing the recomputed 100ms interval. -/
theorem tickCadenceWitness :
    timerInterval 45000000000 = 100000000 ∧
    timerInterval 3000000000 = 100000000 ∧
    update 7 mStages .timeoutMsg =
      some ({ mStages with
                state := 1, passed := 0, start := 7,
                timer := timerNew 3000000000 (timerInterval 3000000000) },
        .startTimer) :=
  ⟨tickCadence.1, tickCadence.2.2.2.1 3000000000 (by decide),
   tickCadence.2.2.2.2.2 7 mStages (by decide)⟩

/-- C6 counterexample: consecutive comma separators do not collapse.
`"5m,,10m"` splits into three tokens including an empty one, so it does
not yield the same two-stage sequence as `"5m, 10m"`; the empty token
then makes the whole spec fail to parse. -/
theorem doubleSeparatorEmptyToken :
    splitTimerArgString "5m,,10m" = ["5m", "", "10m"] ∧
    splitTimerArgString "5m,,10m" ≠ splitTimerArgString "5m, 10m" ∧
    parseTimerArgs "5m,,10m" = .error (invalidDurationErr "") := by
  refine ⟨by decide, by decide, rfl⟩

/-- C6 (amended): runs of whitespace, and a single comma or hyphen with
optional surrounding whitespace, collapse into one separator — so
`"5m, 10m"`, `"5m 10m"` and `"5m-10m"` all tokenize to `["5m", "10m"]`
and parse to the stages `[5m, 10m]` — but consecutive comma/hyphen
separators produce an empty token: `"5m,,10m"` tokenizes to
`["5m", "", "10m"]` and the spec is rejected. -/
theorem separatorCollapsingAmended :
    splitTimerArgString "5m, 10m" = ["5m", "10m"] ∧
    splitTimerArgString "5m 10m" = ["5m", "10m"] ∧
    splitTimerArgString "5m-10m" = ["5m", "10m"] ∧
    parseTimerArgs "5m, 10m" = .ok [300000000000, 600000000000] ∧
    parseTimerArgs "5m 10m" = .ok [300000000000, 600000000000] ∧
    parseTimerArgs "5m-10m" = .ok [300000000000, 600000000000] ∧
    splitTimerArgString "5m,,10m" = ["5m", "", "10m"] := by
  refine ⟨?_, ?_, ?_, rfl, rfl, rfl, ?_⟩ <;> decide

/-- C7 counterexample: the program has no distinct EmptySpec error.  The
empty argument tokenizes to one empty token, not to zero tokens, and
fails with the same invalid-duration parse error that any unparseable
token produces. -/
theorem emptySpecCounterexample :
    splitTimerArgString "" = [""] ∧
    splitTimerArgString "" ≠ [] ∧
    parseTimerArgs "" = .error (invalidDurationErr "") ∧
    invalidDurationErr "" = "time: invalid duration " ++ "\"\"" := by
  refine ⟨by decide, by decide, rfl, rfl⟩

/-- C7 (amended): both `""` and `"abc"` are rejected during startup,
before any session model is constructed, so `RunE` returns an error and
the process exits non-zero with no UI shown; the error in both cases is
the invalid-duration parse error (for `""` it arises from the single
empty token), not a distinct EmptySpec error. -/
theorem emptySpecAmended :
    parseTimerArgs "" = .error (invalidDurationErr "") ∧
    parseTimerArgs "abc" = .error (invalidDurationErr "abc") ∧
    runEInit 0 "" false "" "" = some (.error (invalidDurationErr "")) ∧
    runEInit 0 "" false "" "abc" =
      some (.error (invalidDurationErr "abc")) := by
  refine ⟨rfl, rfl, rfl, rfl⟩

/-- C8: a token accepted by the bare-number test (`strconv.ParseFloat`)
gets the default seconds unit appended, so `"5"` parses to the same
duration as `"5s"`; a digit run followed by any recognized duration unit
is never accepted by that test — every unit ends in `s`, `m` or `h`,
letters no float form contains — so such tokens pass through unchanged. -/
theorem bareNumberNormalization :
    (∀ s : String, goParseFloatOk s = true →
        addSuffixIfArgIsNumber s "s" = s ++ "s") ∧
    (addSuffixIfArgIsNumber "5" "s" = "5s" ∧
      parseDuration (addSuffixIfArgIsNumber "5" "s") = parseDuration "5s" ∧
      parseDuration "5s" = some 5000000000) ∧
    (∀ (ds : List Char) (u : String) (mult : Nat),
        (u, mult) ∈ unitTable → ds ≠ [] → ds.all isDigitChar = true →
        addSuffixIfArgIsNumber (String.mk (ds ++ u.data)) "s" =
          String.mk (ds ++ u.data)) := by
  refine ⟨?_, ⟨by decide, by decide, by decide⟩, ?_⟩
  · intro s hs
    simp [addSuffixIfArgIsNumber, hs]
  · intro ds u mult hu hne hdig
    have htab : unitTable.all
        (fun p => p.1.data.any (fun c => c = 's' || c = 'm' || c = 'h'))
        = true := by decide
    have hx := List.all_eq_true.mp htab (u, mult) hu
    obtain ⟨c, hcmem, hcval⟩ := List.any_eq_true.mp hx
    simp only [Bool.or_eq_true, decide_eq_true_eq] at hcval
    rw [or_assoc] at hcval
    have hfalse := goParseFloatOk_eq_false_of_unit_letter
      (String.mk (ds ++ u.data)) c (List.mem_append_right ds hcmem) hcval
    simp [addSuffixIfArgIsNumber, hfalse]

/-- Witness for C8: `"3.5"` and `"5"` get the seconds suffix, `"5"`
parses identically to `"5s"`, and the unit-bearing token `"10m"` passes
through unchanged. -/
theorem bareNumberNormalizationWitness :
    addSuffixIfArgIsNumber "3.5" "s" = "3.5" ++ "s" ∧
    addSuffixIfArgIsNumber "5" "s" = "5s" ∧
    parseDuration (addSuffixIfArgIsNumber "5" "s") = parseDuration "5s" ∧
    addSuffixIfArgIsNumber (String.mk (['1', '0'] ++ "m".data)) "s" =
      String.mk (['1', '0'] ++ "m".data) :=
  ⟨bareNumberNormalization.1 "3.5" (by decide),
   bareNumberNormalization.2.1.1,
   bareNumberNormalization.2.1.2.1,
   bareNumberNormalization.2.2 ['1', '0'] "m" 60000000000
     (by decide) (by decide) (by decide)⟩

/-- C9: the claim's required behaviour — a non-positive stage duration
acting as an immediate timeout — is not what the code does.  The spec
string `"0"` is accepted and produces a session whose only stage lasts 0
nanoseconds; processing the first Tick then divides by
`durations[0].Milliseconds() = 0`, an integer division by zero that
panics in Go (modelled by `update` returning `none`). -/
theorem zeroDurationTickPanics :
    parseTimerArgs "0" = .ok [0] ∧
    runEInit 0 "" false "" "0" = some (.ok mZero) ∧
    mZero.durations.getD mZero.state 0 = 0 ∧
    update 0 mZero .tick = none := by
  refine ⟨rfl, rfl, rfl, by decide⟩

/-- C10 counterexample: elapsed time can exceed the current stage's
duration.  A fresh 250ms stage ticks every 100ms; the timer is still
running after ticks one and two (timeouts 150ms and 50ms), so the third
tick — the one that drives the countdown to its timeout — is received
before the Timeout event, and after it elapsed is 300ms > 250ms. -/
theorem elapsedExceedsStage :
    iterateTick 0 m250 3 = some m250after ∧
    m250after.passed = 300000000 ∧
    m250.durations.getD m250.state 0 = 250000000 ∧
    ¬ m250after.passed ≤ m250.durations.getD m250.state 0 ∧
    timerRunning m250.timer = true ∧
    (iterateTick 0 m250 1).map (fun mi => timerRunning mi.timer) =
      some true := by
  refine ⟨by decide, rfl, rfl, by decide, rfl, by decide⟩

/-- C10 (amended): in a freshly started stage, elapsed stays
non-negative and equals the number of received ticks times the tick
interval; any tick sequence the Runner can receive before the stage's
Timeout event keeps elapsed below the stage duration plus two intervals,
but elapsed can exceed the stage duration itself (by up to the
final-tick overshoot) whenever the duration is not a multiple of the
interval. -/
theorem elapsedBoundAmended (now : Int) (m : Model) (n : Nat) (mn : Model)
    (hst : m.state < m.durations.length)
    (hms : goMs (m.durations.getD m.state 0) ≠ 0)
    (hd : 0 < m.durations.getD m.state 0)
    (hfresh : m.timer.timeout = m.durations.getD m.state 0)
    (hi : 0 < m.timer.interval)
    (hp : m.passed = 0)
    (hrec : ticksReceivable now m n)
    (hit : iterateTick now m n = some mn) :
    mn.passed = n * m.timer.interval ∧
    0 ≤ mn.passed ∧
    mn.passed < m.durations.getD m.state 0 + 2 * m.timer.interval := by
  rw [iterateTick_eq_iterate now m n hst hms, Option.some_inj] at hit
  subst hit
  have hpass := iterate_tickStep_passed m n
  rw [hp, zero_add] at hpass
  refine ⟨hpass, by rw [hpass]; positivity, ?_⟩
  rw [hpass]
  rcases Nat.lt_or_ge n 2 with hn2 | hn2
  · have hn1 : (n : Int) ≤ 1 := by exact_mod_cast Nat.lt_succ_iff.mp hn2
    have : (n : Int) * m.timer.interval ≤ 1 * m.timer.interval :=
      mul_le_mul_of_nonneg_right hn1 (le_of_lt hi)
    linarith
  · obtain ⟨mi, hmi, hrun⟩ := hrec (n - 2) (by omega)
    rw [iterateTick_eq_iterate now m (n - 2) hst hms,
      Option.some_inj] at hmi
    have hruns : ∀ j, j < n - 2 → timerRunning (tickStep^[j] m).timer
        = true := by
      intro j hj
      obtain ⟨mj, hmj, hrj⟩ := hrec j (by omega)
      rw [iterateTick_eq_iterate now m j hst hms, Option.some_inj] at hmj
      rw [hmj]
      exact hrj
    have htimeout := iterate_tickStep_timeout m (n - 2) hruns
    have hposn : 0 < (tickStep^[n - 2] m).timer.timeout := by
      rw [hmi]
      have := hrun
      simp only [timerRunning, Bool.and_eq_true, decide_eq_true_eq] at this
      exact this.2
    rw [htimeout, hfresh] at hposn
    have hcast : ((n - 2 : Nat) : Int) = (n : Int) - 2 := by omega
    rw [hcast] at hposn
    have hring : ((n : Int) - 2) * m.timer.interval =
        (n : Int) * m.timer.interval - 2 * m.timer.interval := by ring
    rw [hring] at hposn
    linarith

/-- Witness for the amended C10 at the concrete 250ms stage after three
ticks: elapsed is 300ms, non-negative, and below 250ms plus two 100ms
intervals. -/
theorem elapsedBoundAmendedWitness :
    m250after.passed = 3 * m250.timer.interval ∧
    0 ≤ m250after.passed ∧
    m250after.passed <
      m250.durations.getD m250.state 0 + 2 * m250.timer.interval :=
  elapsedBoundAmended 0 m250 3 m250after Nat.zero_lt_one (by decide)
    (by decide) rfl (by decide) rfl
    (by
      intro i hi2
      have hi01 : i = 0 ∨ i = 1 := by omega
      rcases hi01 with rfl | rfl
      · exact ⟨m250, rfl, by decide⟩
      · exact ⟨tickStep m250, by decide, by decide⟩)
    (by decide)

end Toki
